import Mathlib

/-!
Shallow embedding of the graph-to-probabilistic-model compiler of the
MITREAttackFlowtoFuzzyBN repository, together with proofs about the
properties its specification states.

The embedding follows the Python sources:
  bn_creator/grouping_util.py        (GroupingUtil.partition_parents)
  bn_creator/attack_flow_parser.py   (AttackFlowProcessor.process_file, recommendation engine)
  bn_creator/fuzzy_tactics_system.py (FuzzyTacticsSystem)
  bn_creator/fuzzy_bn_integration.py (FuzzyBNBuilder: CPT synthesis and wiring)

Quantities the Python code manipulates as floats are embedded as exact
rationals; the external scikit-fuzzy rule engine and the pysmile inference
engine are abstracted at their call boundaries (see the comments at the
corresponding definitions).
-/

/-! ### Grouping algorithm: GroupingUtil.partition_parents (grouping_util.py, lines 18-36) -/

/-- One step of the bucket construction `buckets[key].append(pid)`: the bucket
list mirrors a Python dict in key insertion order, each bucket keeping its
members in encounter order. -/
def addToBuckets (bs : List (String × List String)) (k : String) (pid : String) :
    List (String × List String) :=
  match bs with
  | [] => [(k, [pid])]
  | (k', l) :: rest =>
      if k' = k then (k', l ++ [pid]) :: rest
      else (k', l) :: addToBuckets rest k pid

/-- Bucketing loop of partition_parents: `for pid in parents: buckets[key].append(pid)`.
The semantic key (`getattr(obj, bucket_key, 'UNKNOWN')`, defaulting to the
tactic id) is abstracted as the function `key`. -/
def bucketize (key : String → String) (parents : List String) :
    List (String × List String) :=
  parents.foldl (fun bs pid => addToBuckets bs (key pid) pid) []

/-- Chunk splitting `members[i:i + max_size] for i in range(0, len(members), max_size)`.
The fuel argument bounds the number of slices taken; `chunkList` passes the
list length, which always suffices since every slice consumes at least one
element. -/
def chunkListAux (n : ℕ) : ℕ → List String → List (List String)
  | 0, _ => []
  | _, [] => []
  | fuel + 1, x :: xs => (x :: xs.take (n - 1)) :: chunkListAux n fuel (xs.drop (n - 1))

/-- Splitting a bucket into chunks of at most `n` members, preserving order. -/
def chunkList (n : ℕ) (l : List String) : List (List String) :=
  chunkListAux n l.length l

/-- Stable sort of the group list by member count, mirroring Python's stable
`sorted(groups, key=len)`. -/
def sortByLen (gs : List (List String)) : List (List String) :=
  gs.insertionSort (fun g1 g2 => g1.length ≤ g2.length)

/-- Merge loop of partition_parents:
`while len(groups) > max_size: sort; g1 = pop(0); g2 = pop(0); append(g1 + g2)`.
The fuel argument bounds the number of loop iterations; `mergeGroups` passes
the group count, which always suffices since every iteration removes one
group. -/
def mergeGroupsAux (maxSize : ℕ) : ℕ → List (List String) → List (List String)
  | 0, gs => gs
  | fuel + 1, gs =>
    if gs.length ≤ maxSize then gs
    else
      match sortByLen gs with
      | g1 :: g2 :: rest => mergeGroupsAux maxSize fuel (rest ++ [g1 ++ g2])
      | [] => []
      | [g] => [g]

/-- Repeatedly merge the two smallest groups until the group count is at most
`maxSize`. -/
def mergeGroups (maxSize : ℕ) (groups : List (List String)) : List (List String) :=
  mergeGroupsAux maxSize groups.length groups

/-- Chunked buckets before the merge loop: every bucket split into slices of at
most `maxSize` members, buckets in key insertion order. -/
def preMergeGroups (key : String → String) (maxSize : ℕ) (parents : List String) :
    List (List String) :=
  ((bucketize key parents).map (fun b => chunkList maxSize b.2)).flatten

/-- GroupingUtil.partition_parents: bucket by semantic key, chunk each bucket to
at most `maxSize` members, then merge the two smallest chunks until at most
`maxSize` chunks remain. -/
def partition_parents (key : String → String) (maxSize : ℕ) (parents : List String) :
    List (List String) :=
  mergeGroups maxSize (preMergeGroups key maxSize parents)

/-! Supporting lemmas for the grouping algorithm. -/

theorem addToBuckets_flatten_perm (bs : List (String × List String)) (k : String)
    (pid : String) :
    ((addToBuckets bs k pid).map Prod.snd).flatten.Perm
      (pid :: (bs.map Prod.snd).flatten) := by
  induction bs with
  | nil => simp [addToBuckets]
  | cons b rest ih =>
    obtain ⟨k', l⟩ := b
    by_cases hk : k' = k
    · simp only [addToBuckets, if_pos hk, List.map_cons, List.flatten_cons]
      rw [show (l ++ [pid]) ++ (rest.map Prod.snd).flatten
            = l ++ pid :: (rest.map Prod.snd).flatten by simp]
      exact List.perm_middle
    · simp only [addToBuckets, if_neg hk, List.map_cons, List.flatten_cons]
      exact (List.Perm.append_left l ih).trans List.perm_middle

theorem bucketize_flatten_perm_aux (key : String → String) (parents : List String)
    (bs : List (String × List String)) :
    ((parents.foldl (fun acc pid => addToBuckets acc (key pid) pid) bs).map
      Prod.snd).flatten.Perm (parents ++ (bs.map Prod.snd).flatten) := by
  induction parents generalizing bs with
  | nil => simp
  | cons pid rest ih =>
    simp only [List.foldl_cons, List.cons_append]
    refine (ih (addToBuckets bs (key pid) pid)).trans ?_
    exact (List.Perm.append_left rest
      (addToBuckets_flatten_perm bs (key pid) pid)).trans List.perm_middle

/-- The buckets jointly contain exactly the original parents (as a multiset). -/
theorem bucketize_flatten_perm (key : String → String) (parents : List String) :
    ((bucketize key parents).map Prod.snd).flatten.Perm parents := by
  simpa using bucketize_flatten_perm_aux key parents []

theorem chunkListAux_flatten (n : ℕ) (fuel : ℕ) (l : List String)
    (h : l.length ≤ fuel) : (chunkListAux n fuel l).flatten = l := by
  induction fuel generalizing l with
  | zero =>
    have hl : l = [] := List.length_eq_zero.mp (Nat.le_zero.mp h)
    simp [hl, chunkListAux]
  | succ fuel ih =>
    cases l with
    | nil => simp [chunkListAux]
    | cons x xs =>
      simp only [List.length_cons, Nat.add_le_add_iff_right] at h
      have hlen : (xs.drop (n - 1)).length ≤ fuel := by
        simp only [List.length_drop]
        omega
      simp only [chunkListAux, List.flatten_cons, ih _ hlen, List.cons_append,
        List.take_append_drop]

theorem chunkList_flatten (n : ℕ) (l : List String) : (chunkList n l).flatten = l :=
  chunkListAux_flatten n l.length l le_rfl

theorem chunkListAux_mem_length (n : ℕ) (hn : 1 ≤ n) (fuel : ℕ) (l : List String)
    (g : List String) (hg : g ∈ chunkListAux n fuel l) : g.length ≤ n := by
  induction fuel generalizing l with
  | zero => simp [chunkListAux] at hg
  | succ fuel ih =>
    cases l with
    | nil => simp [chunkListAux] at hg
    | cons x xs =>
      simp only [chunkListAux, List.mem_cons] at hg
      rcases hg with hg | hg
      · subst hg
        simp only [List.length_cons, List.length_take]
        omega
      · exact ih _ hg

/-- Every chunk produced before the merge loop has at most `maxSize` members. -/
theorem preMergeGroups_length (key : String → String) (maxSize : ℕ)
    (hm : 1 ≤ maxSize) (parents : List String) (g : List String)
    (hg : g ∈ preMergeGroups key maxSize parents) : g.length ≤ maxSize := by
  simp only [preMergeGroups, List.mem_flatten, List.mem_map] at hg
  obtain ⟨chunks, ⟨b, _, hb⟩, hgc⟩ := hg
  subst hb
  exact chunkListAux_mem_length maxSize hm _ _ g hgc

theorem sortByLen_perm (gs : List (List String)) : (sortByLen gs).Perm gs :=
  List.perm_insertionSort _ gs

theorem sortByLen_length (gs : List (List String)) : (sortByLen gs).length = gs.length :=
  (sortByLen_perm gs).length_eq

theorem mergeGroupsAux_flatten_perm (maxSize fuel : ℕ) (gs : List (List String)) :
    (mergeGroupsAux maxSize fuel gs).flatten.Perm gs.flatten := by
  induction fuel generalizing gs with
  | zero => simp [mergeGroupsAux]
  | succ fuel ih =>
    simp only [mergeGroupsAux]
    by_cases h : gs.length ≤ maxSize
    · simp [h]
    · simp only [if_neg h]
      have hsp : (sortByLen gs).flatten.Perm gs.flatten := (sortByLen_perm gs).flatten
      cases hs : sortByLen gs with
      | nil =>
        rw [hs] at hsp
        simpa using hsp
      | cons g1 tail =>
        cases tail with
        | nil =>
          rw [hs] at hsp
          simpa using hsp
        | cons g2 rest =>
          rw [hs] at hsp
          have h1 := ih (rest ++ [g1 ++ g2])
          rw [show (rest ++ [g1 ++ g2]).flatten = rest.flatten ++ (g1 ++ g2) by simp] at h1
          refine h1.trans (List.Perm.trans ?_ hsp)
          rw [show (g1 :: g2 :: rest).flatten = (g1 ++ g2) ++ rest.flatten by
            simp [List.append_assoc]]
          exact List.perm_append_comm

theorem mergeGroupsAux_length (maxSize : ℕ) (hm : 1 ≤ maxSize) (fuel : ℕ)
    (gs : List (List String)) (hfuel : gs.length ≤ fuel + maxSize) :
    (mergeGroupsAux maxSize fuel gs).length ≤ maxSize := by
  induction fuel generalizing gs with
  | zero => simpa [mergeGroupsAux] using hfuel
  | succ fuel ih =>
    simp only [mergeGroupsAux]
    by_cases h : gs.length ≤ maxSize
    · simp [h]
    · simp only [if_neg h]
      cases hs : sortByLen gs with
      | nil => simp
      | cons g1 tail =>
        cases tail with
        | nil => simp [hm]
        | cons g2 rest =>
          have hlen : gs.length = rest.length + 2 := by
            have hsl := sortByLen_length gs
            rw [hs] at hsl
            simpa using hsl.symm
          refine ih (rest ++ [g1 ++ g2]) ?_
          simp only [List.length_append, List.length_cons, List.length_nil]
          omega

/-- After the merge loop at most `maxSize` groups remain. -/
theorem mergeGroups_length (maxSize : ℕ) (hm : 1 ≤ maxSize)
    (gs : List (List String)) : (mergeGroups maxSize gs).length ≤ maxSize :=
  mergeGroupsAux_length maxSize hm gs.length gs (by omega)

/-! ### Recommendation engine: AttackFlowProcessor.process_file
(attack_flow_parser.py, lines 107-155) -/

/-- Number of parents of a node: occurrences of the node as an edge target
(`parent_map.setdefault(tgt, []).append(src)` counts duplicate edges). -/
def parent_count (edges : List (String × String)) (n : String) : ℕ :=
  (edges.filter (fun e => e.2 == n)).length

/-- Number of children of a node: occurrences of the node as an edge source. -/
def child_count (edges : List (String × String)) (n : String) : ℕ :=
  (edges.filter (fun e => e.1 == n)).length

/-- Nodes appearing in the edge list (`all_nodes.update([src, tgt])`);
membership in this list stands for membership in the Python set. -/
def edge_nodes (edges : List (String × String)) : List String :=
  edges.map Prod.fst ++ edges.map Prod.snd

/-- Message `f"Partition recommended (parents: {num_parents})"`. -/
def partition_msg (numParents : ℕ) : String :=
  "Partition recommended (parents: " ++ toString numParents ++ ")"

/-- Message `f"Divorce recommended (children: {num_children})"`. -/
def divorce_msg (numChildren : ℕ) : String :=
  "Divorce recommended (children: " ++ toString numChildren ++ ")"

/-- Logic-classification message for a condition/operator node, from the
`node_id in condition_nodes` branch. -/
def logic_msgs (condition_nodes : List (String × String)) (n : String) : List String :=
  match (condition_nodes.find? (fun p => p.1 == n)).map Prod.snd with
  | none => []
  | some ct =>
      if ct = "AND" then ["Noisy adder logic node (AND) detected"]
      else if ct = "OR" then ["Noisy-OR logic node detected"]
      else ["Unknown condition type: " ++ ct]

/-- Recommendation messages collected for one node, in the order the code
appends them: partition trigger, divorce trigger, logic classification. -/
def node_recs (edges : List (String × String))
    (condition_nodes : List (String × String)) (n : String) : List String :=
  (if 3 ≤ parent_count edges n then [partition_msg (parent_count edges n)] else []) ++
  (if 3 ≤ child_count edges n then [divorce_msg (child_count edges n)] else []) ++
  logic_msgs condition_nodes n

/-- Recommendation record emitted for a node (`if node_recs: recommendations.append(...)`):
node id, parent count, child count, and the message list; `none` when no
trigger fired. -/
def recommendation_for (edges : List (String × String))
    (condition_nodes : List (String × String)) (n : String) :
    Option (String × ℕ × ℕ × List String) :=
  let recs := node_recs edges condition_nodes n
  if recs.isEmpty then none
  else some (n, parent_count edges n, child_count edges n, recs)

/-! ### Fuzzy tactic evaluator: FuzzyTacticsSystem (fuzzy_tactics_system.py)

The scikit-fuzzy rule engine is external; its behaviour at the call boundary
of get_fuzzy_membership_distribution is abstracted by a `FuzzySimOutcome`
value produced by an arbitrary evaluation function, covering every outcome
the Python code distinguishes: the simulation object missing (creation
failed at startup), `sim.compute()` or input assignment raising, the
defuzzified scalar being readable or not, the output variable being
accessible or not, and each per-state membership interpolation succeeding or
raising. -/

/-- Tactic ids having a fuzzy control system (`tactic_systems` keys, built from
the 14 `system_creators` entries). -/
def recognizedTactics : List String :=
  ["TA0043", "TA0042", "TA0001", "TA0002", "TA0003", "TA0004", "TA0005",
   "TA0006", "TA0007", "TA0008", "TA0009", "TA0011", "TA0010", "TA0040"]

/-- Per-tactic default posture parameters (get_default_fuzzy_params,
fuzzy_tactics_system.py lines 814-838), in source order. -/
def get_default_fuzzy_params (tactic_id : String) : List (String × ℚ) :=
  if tactic_id = "TA0043" then
    [("detection_difficulty", 70), ("skill_requirement", 30), ("target_exposure", 60)]
  else if tactic_id = "TA0042" then
    [("resource_availability", 60), ("skill_requirement", 50), ("time_constraint", 40)]
  else if tactic_id = "TA0001" then
    [("attack_surface", 50), ("detection_difficulty", 60), ("skill_requirement", 60)]
  else if tactic_id = "TA0002" then
    [("detection_difficulty", 40), ("skill_requirement", 40)]
  else if tactic_id = "TA0003" then
    [("system_complexity", 50), ("detection_difficulty", 70), ("skill_requirement", 70)]
  else if tactic_id = "TA0004" then
    [("security_hardening", 60), ("skill_requirement", 80), ("detection_difficulty", 80)]
  else if tactic_id = "TA0005" then
    [("monitoring_coverage", 50), ("skill_requirement", 70), ("detection_difficulty", 80)]
  else if tactic_id = "TA0006" then
    [("password_policy", 50), ("skill_requirement", 60), ("resource_availability", 70)]
  else if tactic_id = "TA0007" then
    [("skill_requirement", 40), ("detection_difficulty", 50)]
  else if tactic_id = "TA0008" then
    [("network_segmentation", 50), ("skill_requirement", 70), ("detection_difficulty", 70)]
  else if tactic_id = "TA0009" then
    [("data_accessibility", 60), ("skill_requirement", 50), ("detection_difficulty", 60)]
  else if tactic_id = "TA0011" then
    [("network_monitoring", 50), ("skill_requirement", 60), ("detection_difficulty", 70)]
  else if tactic_id = "TA0010" then
    [("data_loss_prevention", 50), ("skill_requirement", 70), ("detection_difficulty", 80)]
  else if tactic_id = "TA0040" then
    [("backup_recovery", 50), ("skill_requirement", 60), ("detection_difficulty", 70)]
  else
    [("detection_difficulty", 50), ("skill_requirement", 50)]

/-- Clamp `max(0, min(100, value))` applied to every supplied parameter. -/
def clamp0_100 (x : ℚ) : ℚ := max 0 (min 100 x)

/-- Lookup of a named parameter in the supplied keyword mapping. -/
def lookupParam (ps : List (String × ℚ)) (k : String) : Option ℚ :=
  (ps.find? (fun p => p.1 == k)).map Prod.snd

/-- Input assignment loop `for param_name in expected_params: sim.input[...] = ...`:
every expected parameter gets the clamped supplied value, or the tactic
default when absent. -/
def set_sim_inputs (tactic_id : String) (ps : List (String × ℚ)) : List (String × ℚ) :=
  (get_default_fuzzy_params tactic_id).map
    (fun kd => (kd.1, match lookupParam ps kd.1 with
      | some v => clamp0_100 v
      | none => kd.2))

/-- Outcome of one external scikit-fuzzy simulation run, as distinguished by
the Python call sites. -/
structure FuzzySimOutcome where
  simOk : Bool
  computeOk : Bool
  outputOk : Bool
  outputValue : ℚ
  outputVarOk : Bool
  interpOk : Fin 5 → Bool

/-- Triangular membership value at a point, matching `skfuzzy.trimf` sampled on
the integer universe 0..100 followed by `fuzz.interp_membership`: for integer
breakpoints these agree with the exact piecewise-linear triangle, and the
point `x = b` has membership 1 (also when `a = b` or `b = c`). -/
def trimf (a b c x : ℚ) : ℚ :=
  if x = b then 1
  else if x ≤ a ∨ c ≤ x then 0
  else if x < b then (x - a) / (b - a)
  else (c - x) / (c - b)

/-- Triangle parameters of the five `success_probability` output terms
(_create_success_probability_output, lines 66-74). -/
def outputTerm : Fin 5 → ℚ × ℚ × ℚ
  | 0 => (0, 0, 20)
  | 1 => (10, 25, 40)
  | 2 => (30, 50, 70)
  | 3 => (60, 75, 90)
  | 4 => (80, 100, 100)

/-- Membership of the defuzzified scalar in the i-th output term
(`fuzz.interp_membership(output_var.universe, output_var[state].mf, output_value)`).
Off-universe inputs take the endpoint sample value, which the clamp realizes. -/
def interp_output_membership (i : Fin 5) (v : ℚ) : ℚ :=
  let u := max 0 (min 100 v)
  trimf (outputTerm i).1 (outputTerm i).2.1 (outputTerm i).2.2 u

/-- Uniform fallback distribution `[0.2] * 5`. -/
def uniform5 : List ℚ := [1/5, 1/5, 1/5, 1/5, 1/5]

/-- Deterministic bucketing fallback _compute_membership_from_value
(fuzzy_tactics_system.py, lines 722-742). -/
def compute_membership_from_value (output_value : ℚ) : List ℚ :=
  if output_value ≤ 20 then [4/5, 3/20, 1/20, 0, 0]
  else if output_value ≤ 40 then [1/5, 3/5, 1/5, 0, 0]
  else if output_value ≤ 60 then [1/20, 1/4, 2/5, 1/4, 1/20]
  else if output_value ≤ 80 then [0, 0, 1/5, 3/5, 1/5]
  else [0, 0, 1/20, 3/20, 4/5]

/-- Defuzzified scalar actually used downstream: the read output value, or the
50.0 default when `sim.output['success_probability']` is unreadable. -/
def success_value (sim : FuzzySimOutcome) : ℚ :=
  if sim.outputOk then sim.outputValue else 50

/-- Memberships of the scalar in the five linguistic terms, each falling back
to 0.2 when its interpolation raises (lines 692-703). -/
def interp_memberships (ok : Fin 5 → Bool) (v : ℚ) : List ℚ :=
  (List.finRange 5).map (fun i => if ok i then interp_output_membership i v else 1/5)

/-- Normalization of the memberships (lines 705-710): divide by the total when
it is positive, otherwise the uniform distribution. -/
def interp_normalize (ok : Fin 5 → Bool) (v : ℚ) : List ℚ :=
  if 0 < (interp_memberships ok v).sum then
    (interp_memberships ok v).map (fun m => m / (interp_memberships ok v).sum)
  else uniform5

/-- Distribution computed from one simulation outcome: the body of
get_fuzzy_membership_distribution for a recognized tactic. -/
def membership_from_sim (sim : FuzzySimOutcome) : List ℚ :=
  if sim.simOk = false then uniform5
  else if sim.computeOk = false then uniform5
  else if sim.outputVarOk = false then compute_membership_from_value (success_value sim)
  else interp_normalize sim.interpOk (success_value sim)

/-- FuzzyTacticsSystem.get_fuzzy_membership_distribution (lines 557-720).
`evalSim` abstracts the external scikit-fuzzy simulation: it receives the
tactic id and the assigned inputs and reports how the run went. Every
exception branch of the Python code maps to the corresponding fallback. -/
def get_fuzzy_membership_distribution
    (evalSim : String → List (String × ℚ) → FuzzySimOutcome)
    (tactic_id : String) (fuzzy_params : List (String × ℚ)) : List ℚ :=
  if tactic_id ∉ recognizedTactics then uniform5
  else membership_from_sim (evalSim tactic_id (set_sim_inputs tactic_id fuzzy_params))

/-! ### CPT synthesis: FuzzyBNBuilder (fuzzy_bn_integration.py) -/

/-- A probability row: all entries nonnegative and summing to 1 (the Python
code's 1e-6 float tolerance is exact equality over the rationals). -/
def probRow (r : List ℚ) : Prop := (∀ x ∈ r, 0 ≤ x) ∧ r.sum = 1

/-- Mixed-radix decoding of a row index into per-parent states
(`parent_states.append(temp_combo % num_states); temp_combo //= num_states`):
the first-listed parent is the least significant digit. -/
def decodeCombo : ℕ → List ℕ → List ℕ
  | _, [] => []
  | t, c :: cs => (t % c) :: decodeCombo (t / c) cs

/-- Mixed-radix encoding, inverse of decodeCombo on valid digit lists. -/
def encodeCombo : List ℕ → List ℕ → ℕ
  | [], _ => 0
  | _, [] => 0
  | s :: sts, c :: cs => s + c * encodeCombo sts cs

/-- Normalized influence of one parent state (_handle_mixed_parent_cpt lines
209-216): a binary parent contributes its state 0 or 1, a multi-state parent
its state divided by cardinality minus 1. -/
def parentInfluence (state : ℕ) (card : ℕ) : ℚ :=
  if card = 2 then (state : ℚ) else (state : ℚ) / ((card : ℚ) - 1)

/-- Average normalized parent influence for one row index
(`avg_influence = total_influence / len(parent_info) if parent_info else 0.5`). -/
def avgInfluence (cards : List ℕ) (combo : ℕ) : ℚ :=
  if cards.isEmpty then 1/2
  else (List.zipWith parentInfluence (decodeCombo combo cards) cards).sum /
    (cards.length : ℚ)

/-- Bounded linear shift of the base membership by parent influence
(_handle_mixed_parent_cpt lines 222-240). The base list always has five
entries at the call site; other shapes pass through unchanged. -/
def shiftMembership (b : List ℚ) (avg : ℚ) : List ℚ :=
  match b with
  | [p0, p1, p2, p3, p4] =>
      if avg < 3/10 then
        let s := (3/10 - avg) * (3/10)
        [p0 + s * (2/10), p1 + s * (15/100), p2 - s * (1/10),
         p3 - s * (15/100), p4 - s * (1/10)]
      else if 7/10 < avg then
        let s := (avg - 7/10) * (3/10)
        [p0 - s * (1/10), p1 - s * (15/100), p2 - s * (1/10),
         p3 + s * (15/100), p4 + s * (2/10)]
      else b
  | _ => b

/-- Clamp every entry to at least 0.01 and renormalize
(`[max(0.01, p) for p in ...]` then division by the sum, lines 242-245). -/
def clampNormalize (l : List ℚ) : List ℚ :=
  (l.map (fun p => max (1/100) p)).map
    (fun p => p / (l.map (fun q => max (1/100) q)).sum)

/-- One row of the mixed-parent CPT of a tactic node. -/
def mixedParentRow (base : List ℚ) (cards : List ℕ) (combo : ℕ) : List ℚ :=
  clampNormalize (shiftMembership base (avgInfluence cards combo))

/-- FuzzyBNBuilder._handle_mixed_parent_cpt (lines 171-252): without parents
the base fuzzy distribution itself, otherwise the flat concatenation of one
adjusted row per parent-state combination. -/
def handle_mixed_parent_cpt (base : List ℚ) (cards : List ℕ) : List ℚ :=
  if cards.isEmpty then base
  else ((List.range cards.prod).map (mixedParentRow base cards)).flatten

/-- Default prior of a 5-state variable without a tactic CPT
(_set_default_cpt line 312; also each row of the parented 5-state default). -/
def default_prior5 : List ℚ := [3/20, 1/5, 3/10, 1/5, 3/20]

/-- Default prior of a parentless binary variable (_set_default_cpt line 335). -/
def default_prior2 : List ℚ := [7/10, 3/10]

/-- One row of the parented binary default CPT (_set_default_cpt lines
349-371): `prob = max(0.1, min(0.9, 0.2 + avg_influence * 0.7))`, row
`[1 - prob, prob]`. -/
def default_binary_row (cards : List ℕ) (combo : ℕ) : List ℚ :=
  let p := max (1/10) (min (9/10) (2/10 + avgInfluence cards combo * (7/10)))
  [1 - p, p]

/-- FuzzyBNBuilder._set_default_cpt (lines 300-373), keyed by the variable's
outcome count and its parent cardinalities. -/
def set_default_cpt (numOutcomes : ℕ) (cards : List ℕ) : List ℚ :=
  if numOutcomes = 5 then
    if cards.isEmpty then default_prior5
    else ((List.range cards.prod).map (fun _ => default_prior5)).flatten
  else
    if cards.isEmpty then default_prior2
    else ((List.range cards.prod).map (default_binary_row cards)).flatten

/-- Normalized activation of one parent of an AND gate (build, lines 482-487):
a 5-state parent contributes its state divided by 4, any other its raw state. -/
def andActivation (card : ℕ) (val : ℕ) : ℚ :=
  if card = 5 then (val : ℚ) / 4 else (val : ℚ)

/-- One row of the AND-logic CPT (build, lines 472-492): probability of true
is the minimum normalized parent activation, starting from 1.0. -/
def and_row (cards : List ℕ) (combo : ℕ) : List ℚ :=
  let minAct := (List.zipWith andActivation cards (decodeCombo combo cards)).foldl min 1
  [1 - minAct, minAct]

/-- Flat AND-logic CPT over all parent-state combinations. -/
def and_logic_cpt (cards : List ℕ) : List ℚ :=
  ((List.range cards.prod).map (and_row cards)).flatten

/-- Low-bias row of a 5-state divorced child for hub = false (build, line 604). -/
def divorceLow5 : List ℚ := [2/5, 3/10, 1/5, 2/25, 1/50]

/-- High-bias row of a 5-state divorced child for hub = true (build, line 607). -/
def divorceHigh5 : List ℚ := [1/50, 2/25, 1/5, 3/10, 2/5]

/-- One row of a 5-state divorced child's CPT (build, lines 590-609): decoded
hub digit 0 selects the low-bias vector, anything else the high-bias vector. -/
def divorce_child_row5 (cards : List ℕ) (hubIdx : ℕ) (combo : ℕ) : List ℚ :=
  if (decodeCombo combo cards).getD hubIdx 0 = 0 then divorceLow5 else divorceHigh5

/-- One row of a binary divorced child's CPT (build, lines 613-630). -/
def divorce_child_row2 (cards : List ℕ) (hubIdx : ℕ) (combo : ℕ) : List ℚ :=
  if (decodeCombo combo cards).getD hubIdx 0 = 0 then [1, 0] else [0, 1]

/-- Flat divorced-child CPT; children whose outcome count is neither 5 nor 2
receive no table (no code branch sets one). -/
def divorce_child_cpt (childStates : ℕ) (cards : List ℕ) (hubIdx : ℕ) :
    Option (List ℚ) :=
  if childStates = 5 then
    some ((List.range cards.prod).map (divorce_child_row5 cards hubIdx)).flatten
  else if childStates = 2 then
    some ((List.range cards.prod).map (divorce_child_row2 cards hubIdx)).flatten
  else none

/-- Row of the divorce hub variable's table. The hub is a binary CPT node the
builder creates but never assigns a definition to (its id is not in used_ids,
so _set_all_cpts skips it); pysmile keeps its default uniform definition. -/
def divorce_hub_row : List ℚ := [1/2, 1/2]

/-! ### Wiring of remaining edges (build, lines 536-671) and the final CPT
pass (_set_all_cpts, lines 681-706) -/

/-- Node id sanitization `safe = lambda x: x.replace("-", "_")`. -/
def safeId (s : String) : String :=
  ⟨s.data.map (fun c => if c = '-' then '_' else c)⟩

/-- Children claimed by a divorce hub (build, lines 538-542): children of
divorce groups whose node is not itself partitioned, kept as raw ids. -/
def divorce_children_set (partition_groups : List (String × List (List String)))
    (divorce_groups : List (String × List String)) : List String :=
  ((divorce_groups.filter
      (fun dg => ((partition_groups.map Prod.fst).contains dg.1) = false)).map
    Prod.snd).flatten

/-- Edges already represented by group wiring (build, lines 647-657):
member-to-node pairs of partition and logic groups and node-to-child pairs of
divorce groups, as raw ids. -/
def covered_edges (partition_groups : List (String × List (List String)))
    (logic_groups : List (String × List String))
    (divorce_groups : List (String × List String)) : List (String × String) :=
  (partition_groups.map (fun pg => pg.2.flatten.map (fun pid => (pid, pg.1)))).flatten ++
  (logic_groups.map (fun lg => lg.2.map (fun pid => (pid, lg.1)))).flatten ++
  (divorce_groups.map (fun dg => dg.2.map (fun cid => (dg.1, cid)))).flatten

/-- Decision of the remaining-edge loop (build, lines 660-669): the arc for
edge `e` is attempted unless the sanitized target is in the (raw-id) divorce
children set, the edge is covered, or an endpoint is not a created variable;
`valid_nodes` holds the sanitized ids of all created variables. -/
def remaining_arc_attempted (divorce_children : List String)
    (covered : List (String × String)) (valid_nodes : List String)
    (e : String × String) : Bool :=
  !(divorce_children.contains (safeId e.2)) &&
  !(covered.contains e) &&
  valid_nodes.contains (safeId e.1) && valid_nodes.contains (safeId e.2)

/-- Effect of _set_all_cpts on one variable's definition: non-CPT (noisy-max)
nodes are skipped; tactic nodes always get the freshly computed fuzzy table,
"overriding any existing definition"; other nodes keep a non-empty existing
table and otherwise get the default table. -/
def set_all_cpts_node (node_type_is_cpt : Bool) (is_tactic : Bool)
    (existing : Option (List ℚ)) (fuzzy_table default_table : List ℚ) :
    Option (List ℚ) :=
  if node_type_is_cpt = false then existing
  else if is_tactic then some fuzzy_table
  else
    match existing with
    | some t => if t.isEmpty = false then some t else some default_table
    | none => some default_table

/-! Supporting lemmas: probability rows. -/

theorem sum_map_div (l : List ℚ) (s : ℚ) :
    (l.map (fun x => x / s)).sum = l.sum / s := by
  induction l with
  | nil => simp
  | cons h t ih => simp [ih, add_div]

theorem probRow_five (a b c d e : ℚ) (ha : 0 ≤ a) (hb : 0 ≤ b) (hc : 0 ≤ c)
    (hd : 0 ≤ d) (he : 0 ≤ e) (hsum : a + b + c + d + e = 1) :
    probRow [a, b, c, d, e] := by
  constructor
  · intro x hx
    simp only [List.mem_cons, List.not_mem_nil, or_false] at hx
    rcases hx with rfl | rfl | rfl | rfl | rfl <;> assumption
  · simpa [add_assoc] using hsum

theorem probRow_two (p : ℚ) (h0 : 0 ≤ p) (h1 : p ≤ 1) : probRow [1 - p, p] := by
  constructor
  · intro x hx
    simp only [List.mem_cons, List.not_mem_nil, or_false] at hx
    rcases hx with rfl | rfl <;> linarith
  · simp

theorem uniform5_probRow : probRow uniform5 :=
  probRow_five _ _ _ _ _ (by norm_num) (by norm_num) (by norm_num) (by norm_num)
    (by norm_num) (by norm_num)

theorem trimf_nonneg (a b c x : ℚ) (hab : a ≤ b) (_hbc : b ≤ c) : 0 ≤ trimf a b c x := by
  unfold trimf
  split
  · norm_num
  · split
    · norm_num
    · rename_i hxb hout
      push_neg at hout
      split
      · exact div_nonneg (by linarith [hout.1]) (by linarith [hout.1])
      · rename_i hlt
        push_neg at hlt
        have hbx : b < x := lt_of_le_of_ne hlt (fun hh => hxb hh.symm)
        exact div_nonneg (by linarith [hout.2]) (by linarith)

theorem interp_output_membership_nonneg (i : Fin 5) (v : ℚ) :
    0 ≤ interp_output_membership i v := by
  unfold interp_output_membership
  fin_cases i <;>
    exact trimf_nonneg _ _ _ _ (by norm_num [outputTerm]) (by norm_num [outputTerm])

theorem compute_membership_from_value_probRow (v : ℚ) :
    probRow (compute_membership_from_value v) := by
  unfold compute_membership_from_value
  split
  · exact probRow_five _ _ _ _ _ (by norm_num) (by norm_num) (by norm_num)
      (by norm_num) (by norm_num) (by norm_num)
  · split
    · exact probRow_five _ _ _ _ _ (by norm_num) (by norm_num) (by norm_num)
        (by norm_num) (by norm_num) (by norm_num)
    · split
      · exact probRow_five _ _ _ _ _ (by norm_num) (by norm_num) (by norm_num)
          (by norm_num) (by norm_num) (by norm_num)
      · split
        · exact probRow_five _ _ _ _ _ (by norm_num) (by norm_num) (by norm_num)
            (by norm_num) (by norm_num) (by norm_num)
        · exact probRow_five _ _ _ _ _ (by norm_num) (by norm_num) (by norm_num)
            (by norm_num) (by norm_num) (by norm_num)

theorem interp_memberships_nonneg (ok : Fin 5 → Bool) (v : ℚ) (m : ℚ)
    (hm : m ∈ interp_memberships ok v) : 0 ≤ m := by
  simp only [interp_memberships, List.mem_map] at hm
  obtain ⟨i, _, rfl⟩ := hm
  split
  · exact interp_output_membership_nonneg i v
  · norm_num

theorem interp_normalize_probRow (ok : Fin 5 → Bool) (v : ℚ) :
    probRow (interp_normalize ok v) := by
  unfold interp_normalize
  split
  · rename_i hsum
    constructor
    · intro x hx
      simp only [List.mem_map] at hx
      obtain ⟨m, hm, rfl⟩ := hx
      exact div_nonneg (interp_memberships_nonneg ok v m hm) (le_of_lt hsum)
    · rw [sum_map_div, div_self (ne_of_gt hsum)]
  · exact uniform5_probRow

theorem membership_from_sim_probRow (sim : FuzzySimOutcome) :
    probRow (membership_from_sim sim) := by
  unfold membership_from_sim
  split
  · exact uniform5_probRow
  · split
    · exact uniform5_probRow
    · split
      · exact compute_membership_from_value_probRow _
      · exact interp_normalize_probRow _ _

/-- The fuzzy membership distribution is always a probability vector. -/
theorem membership_distribution_probRow
    (evalSim : String → List (String × ℚ) → FuzzySimOutcome)
    (tactic_id : String) (ps : List (String × ℚ)) :
    probRow (get_fuzzy_membership_distribution evalSim tactic_id ps) := by
  unfold get_fuzzy_membership_distribution
  split
  · exact uniform5_probRow
  · exact membership_from_sim_probRow _

theorem interp_memberships_length (ok : Fin 5 → Bool) (v : ℚ) :
    (interp_memberships ok v).length = 5 := by
  simp [interp_memberships]

theorem interp_normalize_length (ok : Fin 5 → Bool) (v : ℚ) :
    (interp_normalize ok v).length = 5 := by
  unfold interp_normalize
  split
  · simp [interp_memberships_length]
  · rfl

theorem compute_membership_from_value_length (v : ℚ) :
    (compute_membership_from_value v).length = 5 := by
  unfold compute_membership_from_value
  split
  · rfl
  · split
    · rfl
    · split
      · rfl
      · split <;> rfl

theorem membership_from_sim_length (sim : FuzzySimOutcome) :
    (membership_from_sim sim).length = 5 := by
  unfold membership_from_sim
  split
  · rfl
  · split
    · rfl
    · split
      · exact compute_membership_from_value_length _
      · exact interp_normalize_length _ _

/-- The fuzzy membership distribution always has exactly five entries. -/
theorem membership_distribution_length
    (evalSim : String → List (String × ℚ) → FuzzySimOutcome)
    (tactic_id : String) (ps : List (String × ℚ)) :
    (get_fuzzy_membership_distribution evalSim tactic_id ps).length = 5 := by
  unfold get_fuzzy_membership_distribution
  split
  · rfl
  · exact membership_from_sim_length _

/-! Supporting lemmas: clamped normalization, AND activation, radix coding. -/

theorem clampNormalize_probRow (l : List ℚ) (hl : l ≠ []) :
    probRow (clampNormalize l) := by
  have hpos : 0 < (l.map (fun q => max (1/100) q)).sum := by
    apply List.sum_pos
    · intro x hx
      simp only [List.mem_map] at hx
      obtain ⟨p, _, rfl⟩ := hx
      exact lt_of_lt_of_le (by norm_num) (le_max_left _ _)
    · simpa using hl
  constructor
  · intro x hx
    simp only [clampNormalize, List.mem_map] at hx
    obtain ⟨p, ⟨q, _, rfl⟩, rfl⟩ := hx
    exact div_nonneg (le_trans (by norm_num) (le_max_left _ _)) (le_of_lt hpos)
  · simp only [clampNormalize]
    rw [sum_map_div, div_self (ne_of_gt hpos)]

theorem shiftMembership_ne_nil (b : List ℚ) (avg : ℚ) (hb : b ≠ []) :
    shiftMembership b avg ≠ [] := by
  unfold shiftMembership
  split
  · split
    · simp
    · split
      · simp
      · simp
  · exact hb

theorem mixedParentRow_probRow (base : List ℚ) (cards : List ℕ) (combo : ℕ)
    (hbase : base ≠ []) : probRow (mixedParentRow base cards combo) :=
  clampNormalize_probRow _ (shiftMembership_ne_nil base _ hbase)

theorem zipWith_andActivation_nonneg (l1 l2 : List ℕ) (x : ℚ)
    (hx : x ∈ List.zipWith andActivation l1 l2) : 0 ≤ x := by
  induction l1 generalizing l2 with
  | nil => simp at hx
  | cons a t ih =>
    cases l2 with
    | nil => simp at hx
    | cons b s =>
      simp only [List.zipWith_cons_cons, List.mem_cons] at hx
      rcases hx with rfl | hx
      · unfold andActivation
        split
        · positivity
        · positivity
      · exact ih s hx

theorem foldl_min_le_init (l : List ℚ) (init : ℚ) : l.foldl min init ≤ init := by
  induction l generalizing init with
  | nil => simp
  | cons h t ih => exact le_trans (ih (min init h)) (min_le_left _ _)

theorem foldl_min_nonneg (l : List ℚ) (init : ℚ) (h0 : 0 ≤ init)
    (h : ∀ x ∈ l, 0 ≤ x) : 0 ≤ l.foldl min init := by
  induction l generalizing init with
  | nil => simpa using h0
  | cons a t ih =>
    refine ih (min init a) (le_min h0 (h a (by simp))) ?_
    intro x hx
    exact h x (by simp [hx])

theorem and_row_probRow (cards : List ℕ) (combo : ℕ) : probRow (and_row cards combo) := by
  refine probRow_two _ ?_ ?_
  · exact foldl_min_nonneg _ 1 (by norm_num)
      (fun x hx => zipWith_andActivation_nonneg _ _ x hx)
  · exact foldl_min_le_init _ 1

theorem default_binary_row_probRow (cards : List ℕ) (combo : ℕ) :
    probRow (default_binary_row cards combo) := by
  refine probRow_two _ ?_ ?_
  · exact le_trans (by norm_num) (le_max_left _ _)
  · exact max_le (by norm_num) (le_trans (min_le_left _ _) (by norm_num))

theorem decode_encode (sts cards : List ℕ) (h : List.Forall₂ (· < ·) sts cards) :
    decodeCombo (encodeCombo sts cards) cards = sts := by
  induction h with
  | nil => rfl
  | cons hsc htail ih =>
    rename_i s c sts' cards'
    simp only [encodeCombo, decodeCombo]
    have h1 : (s + c * encodeCombo sts' cards') % c = s := by
      rw [Nat.add_mul_mod_self_left, Nat.mod_eq_of_lt hsc]
    have h2 : (s + c * encodeCombo sts' cards') / c = encodeCombo sts' cards' := by
      rw [Nat.add_mul_div_left _ _ (Nat.lt_of_le_of_lt (Nat.zero_le s) hsc),
        Nat.div_eq_of_lt hsc]
      simp
    rw [h1, h2, ih]

theorem forall₂_lt_set (sts cards : List ℕ) (h : List.Forall₂ (· < ·) sts cards)
    (i v : ℕ) (hv : v < cards.getD i 0) :
    List.Forall₂ (· < ·) (sts.set i v) cards := by
  induction h generalizing i with
  | nil => exact List.Forall₂.nil
  | cons hsc htail ih =>
    cases i with
    | zero => exact List.Forall₂.cons (by simpa using hv) htail
    | succ j => exact List.Forall₂.cons hsc (ih j (by simpa using hv))

theorem getD_set_self (l : List ℕ) (i a : ℕ) (h : i < l.length) :
    (l.set i a).getD i 0 = a := by
  simp [List.getD_eq_getElem?_getD, List.getElem?_set_self, h]

theorem probRow_pair (a b : ℚ) (ha : 0 ≤ a) (hb : 0 ≤ b) (hsum : a + b = 1) :
    probRow [a, b] := by
  constructor
  · intro x hx
    simp only [List.mem_cons, List.not_mem_nil, or_false] at hx
    rcases hx with rfl | rfl <;> assumption
  · simpa using hsum

theorem flatten_chunk_buckets (m : ℕ) (bs : List (String × List String)) :
    ((bs.map (fun b => chunkList m b.2)).flatten).flatten =
      (bs.map Prod.snd).flatten := by
  induction bs with
  | nil => simp
  | cons b rest ih => simp [chunkList_flatten, ih]

/-! ### The claims -/

/-- Claim C2: for every parents list given to the partition bucketing
(duplicate ids from duplicate edges included) with the configured bound at
least 1, the concatenation of the sub-groups returned by partition_parents is
a permutation of the original parents list: every parent occurrence lands in
exactly one sub-group, none is lost and none is duplicated. -/
theorem C2_partition_parents_covers (key : String → String) (maxSize : ℕ)
    (parents : List String) (_hm : 1 ≤ maxSize) :
    ((partition_parents key maxSize parents).flatten).Perm parents := by
  unfold partition_parents mergeGroups
  refine (mergeGroupsAux_flatten_perm _ _ _).trans ?_
  unfold preMergeGroups
  rw [flatten_chunk_buckets]
  exact bucketize_flatten_perm key parents

/-- Witness for C2 at a parents list containing a duplicate id. -/
theorem C2_partition_parents_covers_witness :
    1 ≤ 3 ∧ ((partition_parents (fun s => s) 3 ["a", "b", "a", "c"]).flatten).Perm
      ["a", "b", "a", "c"] :=
  ⟨by norm_num,
   C2_partition_parents_covers (fun s => s) 3 ["a", "b", "a", "c"] (by norm_num)⟩

/-- Counterexample to claim C3: ten parents falling into ten distinct buckets
with bound 3 merge into a sub-group of four members, exceeding maxSize. -/
theorem C3_counterexample :
    ¬ (∀ g ∈ partition_parents (fun s => s) 3
        ["a", "b", "c", "d", "e", "f", "g", "h", "i", "j"], g.length ≤ 3) := by
  intro h
  have hmem : ["a", "b", "c", "d"] ∈ partition_parents (fun s => s) 3
      ["a", "b", "c", "d", "e", "f", "g", "h", "i", "j"] := by decide
  have hlen := h _ hmem
  simp at hlen

/-- Claim C3 amended: with bound maxSize ≥ 1, every sub-group has length at
most maxSize before the merge step, and the merge step bounds the number of
sub-groups (not their lengths) by maxSize. -/
theorem C3_partition_group_bounds (key : String → String) (maxSize : ℕ)
    (parents : List String) (hm : 1 ≤ maxSize) :
    (∀ g ∈ preMergeGroups key maxSize parents, g.length ≤ maxSize) ∧
    (partition_parents key maxSize parents).length ≤ maxSize :=
  ⟨fun g hg => preMergeGroups_length key maxSize hm parents g hg,
   mergeGroups_length maxSize hm _⟩

/-- Witness for the amended C3 at a concrete parents list. -/
theorem C3_partition_group_bounds_witness :
    1 ≤ 3 ∧
    (∀ g ∈ preMergeGroups (fun s => s) 3 ["a", "b", "a", "c"], g.length ≤ 3) ∧
    (partition_parents (fun s => s) 3 ["a", "b", "a", "c"]).length ≤ 3 := by
  have h := C3_partition_group_bounds (fun s => s) 3 ["a", "b", "a", "c"] (by norm_num)
  exact ⟨by norm_num, h.1, h.2⟩

/-- Claim C4: for every node appearing in the edge list, a parent count of at
least 3 puts a Partition message into the emitted recommendation and a child
count of at least 3 puts a Divorce message there; the two triggers are
independent conjuncts and may fire together on the same node. -/
theorem C4_recommendation_triggers (edges : List (String × String))
    (condition_nodes : List (String × String)) (n : String)
    (_hn : n ∈ edge_nodes edges) :
    (3 ≤ parent_count edges n →
      partition_msg (parent_count edges n) ∈ node_recs edges condition_nodes n ∧
      (recommendation_for edges condition_nodes n).isSome = true) ∧
    (3 ≤ child_count edges n →
      divorce_msg (child_count edges n) ∈ node_recs edges condition_nodes n ∧
      (recommendation_for edges condition_nodes n).isSome = true) := by
  constructor
  · intro h3
    have hmem : partition_msg (parent_count edges n) ∈
        node_recs edges condition_nodes n := by
      unfold node_recs
      rw [if_pos h3]
      simp
    refine ⟨hmem, ?_⟩
    have hne : node_recs edges condition_nodes n ≠ [] := List.ne_nil_of_mem hmem
    simp [recommendation_for, hne]
  · intro h3
    have hmem : divorce_msg (child_count edges n) ∈
        node_recs edges condition_nodes n := by
      unfold node_recs
      rw [if_pos h3]
      simp
    refine ⟨hmem, ?_⟩
    have hne : node_recs edges condition_nodes n ≠ [] := List.ne_nil_of_mem hmem
    simp [recommendation_for, hne]

/-- Witness for C4 at a node with three parents and three children, where both
triggers fire together. -/
theorem C4_recommendation_triggers_witness :
    "x" ∈ edge_nodes
      [("p1", "x"), ("p2", "x"), ("p3", "x"), ("x", "c1"), ("x", "c2"), ("x", "c3")] ∧
    3 ≤ parent_count
      [("p1", "x"), ("p2", "x"), ("p3", "x"), ("x", "c1"), ("x", "c2"), ("x", "c3")] "x" ∧
    3 ≤ child_count
      [("p1", "x"), ("p2", "x"), ("p3", "x"), ("x", "c1"), ("x", "c2"), ("x", "c3")] "x" ∧
    partition_msg (parent_count
      [("p1", "x"), ("p2", "x"), ("p3", "x"), ("x", "c1"), ("x", "c2"), ("x", "c3")] "x") ∈
      node_recs
        [("p1", "x"), ("p2", "x"), ("p3", "x"), ("x", "c1"), ("x", "c2"), ("x", "c3")] [] "x" ∧
    divorce_msg (child_count
      [("p1", "x"), ("p2", "x"), ("p3", "x"), ("x", "c1"), ("x", "c2"), ("x", "c3")] "x") ∈
      node_recs
        [("p1", "x"), ("p2", "x"), ("p3", "x"), ("x", "c1"), ("x", "c2"), ("x", "c3")] [] "x" := by
  have h := C4_recommendation_triggers
    [("p1", "x"), ("p2", "x"), ("p3", "x"), ("x", "c1"), ("x", "c2"), ("x", "c3")] [] "x"
    (by decide)
  exact ⟨by decide, by decide, by decide, (h.1 (by decide)).1, (h.2 (by decide)).1⟩

/-- Claim C9: for every tactic id outside the recognized tactic codes,
get_fuzzy_membership_distribution returns exactly the uniform vector
[0.2, 0.2, 0.2, 0.2, 0.2], regardless of the supplied parameters and of the
external rule engine. -/
theorem C9_unknown_tactic_uniform
    (evalSim : String → List (String × ℚ) → FuzzySimOutcome)
    (tactic_id : String) (ps : List (String × ℚ))
    (h : tactic_id ∉ recognizedTactics) :
    get_fuzzy_membership_distribution evalSim tactic_id ps =
      [1/5, 1/5, 1/5, 1/5, 1/5] := by
  unfold get_fuzzy_membership_distribution
  rw [if_pos h]
  rfl

/-- Witness for C9 at the unrecognized id TA9999 with parameters supplied. -/
theorem C9_unknown_tactic_uniform_witness :
    "TA9999" ∉ recognizedTactics ∧
    get_fuzzy_membership_distribution
      (fun _ _ => ⟨true, true, true, 50, true, fun _ => true⟩) "TA9999"
      [("skill_requirement", 80)] = [1/5, 1/5, 1/5, 1/5, 1/5] :=
  ⟨by decide, C9_unknown_tactic_uniform _ _ _ (by decide)⟩

/-- Claim C10: get_fuzzy_membership_distribution is total — every failure
outcome of the external rule evaluation, output access, and per-state
membership interpolation is mapped to a fallback vector or the deterministic
bucketing, never propagated — and for every tactic id, parameter mapping, and
engine outcome the result has exactly 5 entries, all nonnegative. -/
theorem C10_membership_total_nonneg
    (evalSim : String → List (String × ℚ) → FuzzySimOutcome)
    (tactic_id : String) (ps : List (String × ℚ)) :
    (get_fuzzy_membership_distribution evalSim tactic_id ps).length = 5 ∧
    ∀ x ∈ get_fuzzy_membership_distribution evalSim tactic_id ps, 0 ≤ x :=
  ⟨membership_distribution_length evalSim tactic_id ps,
   (membership_distribution_probRow evalSim tactic_id ps).1⟩

/-- Claim C1: every CPT row the synthesizer finally assigns is a probability
vector (entries nonnegative, summing to 1 — exactly, over the rationals, so
in particular within the 1e-6 float tolerance). The conjuncts cover every
assignment path: the base fuzzy distribution of a parentless tactic node,
every row of the mixed-parent tactic CPT, the 5-state and binary default
priors, every row of the parented binary default CPT, every AND-gate row,
every divorced-child row (5-state and binary), and the divorce hub's
engine-default uniform row. -/
theorem C1_cpt_rows_probability_vectors :
    (∀ (evalSim : String → List (String × ℚ) → FuzzySimOutcome)
       (tactic_id : String) (ps : List (String × ℚ)),
      probRow (get_fuzzy_membership_distribution evalSim tactic_id ps)) ∧
    (∀ (evalSim : String → List (String × ℚ) → FuzzySimOutcome)
       (tactic_id : String) (ps : List (String × ℚ)) (cards : List ℕ) (combo : ℕ),
      probRow (mixedParentRow
        (get_fuzzy_membership_distribution evalSim tactic_id ps) cards combo)) ∧
    probRow default_prior5 ∧
    probRow default_prior2 ∧
    (∀ (cards : List ℕ) (combo : ℕ), probRow (default_binary_row cards combo)) ∧
    (∀ (cards : List ℕ) (combo : ℕ), probRow (and_row cards combo)) ∧
    (∀ (cards : List ℕ) (hubIdx combo : ℕ),
      probRow (divorce_child_row5 cards hubIdx combo)) ∧
    (∀ (cards : List ℕ) (hubIdx combo : ℕ),
      probRow (divorce_child_row2 cards hubIdx combo)) ∧
    probRow divorce_hub_row := by
  refine ⟨fun evalSim t ps => membership_distribution_probRow evalSim t ps,
    fun evalSim t ps cards combo => ?_, ?_, ?_,
    fun cards combo => default_binary_row_probRow cards combo,
    fun cards combo => and_row_probRow cards combo,
    fun cards hubIdx combo => ?_, fun cards hubIdx combo => ?_, ?_⟩
  · refine mixedParentRow_probRow _ cards combo ?_
    intro hnil
    have hlen := membership_distribution_length evalSim t ps
    rw [hnil] at hlen
    simp at hlen
  · exact probRow_five _ _ _ _ _ (by norm_num) (by norm_num) (by norm_num)
      (by norm_num) (by norm_num) (by norm_num)
  · exact probRow_pair _ _ (by norm_num) (by norm_num) (by norm_num)
  · unfold divorce_child_row5
    split
    · exact probRow_five _ _ _ _ _ (by norm_num) (by norm_num) (by norm_num)
        (by norm_num) (by norm_num) (by norm_num)
    · exact probRow_five _ _ _ _ _ (by norm_num) (by norm_num) (by norm_num)
        (by norm_num) (by norm_num) (by norm_num)
  · unfold divorce_child_row2
    split
    · exact probRow_pair _ _ (by norm_num) (by norm_num) (by norm_num)
    · exact probRow_pair _ _ (by norm_num) (by norm_num) (by norm_num)
  · exact probRow_pair _ _ (by norm_num) (by norm_num) (by norm_num)

/-- Claim C5: for an AND logic group over exactly two binary parents, the
synthesized CPT row at index v1 + 2·v2 (first-listed parent least
significant) gives probability 1 to true exactly when both parents are true
and probability 0 otherwise. -/
theorem C5_and_gate_two_binary (v1 v2 : Fin 2) :
    and_row [2, 2] (v1.val + 2 * v2.val) =
      [if v1.val = 1 ∧ v2.val = 1 then 0 else 1,
       if v1.val = 1 ∧ v2.val = 1 then 1 else 0] := by
  fin_cases v1 <;> fin_cases v2 <;>
    norm_num [and_row, decodeCombo, andActivation]

/-- Claim C6: for every divorced child and every fixed assignment to its other
parents, the row for hub = false is the low-bias vector and the row for
hub = true the high-bias vector ([0.4,0.3,0.2,0.08,0.02] versus
[0.02,0.08,0.2,0.3,0.4] for a 5-state child, [1,0] versus [0,1] for a binary
child), so the lowest state's entry strictly drops from hub = false to
hub = true. -/
theorem C6_divorce_hub_bias (cards : List ℕ) (hubIdx : ℕ) (sts : List ℕ)
    (hval : List.Forall₂ (· < ·) sts cards) (hidx : hubIdx < cards.length)
    (hcard : cards.getD hubIdx 0 = 2) :
    (divorce_child_row5 cards hubIdx (encodeCombo (sts.set hubIdx 0) cards) =
        divorceLow5 ∧
      divorce_child_row5 cards hubIdx (encodeCombo (sts.set hubIdx 1) cards) =
        divorceHigh5 ∧
      (divorce_child_row5 cards hubIdx
          (encodeCombo (sts.set hubIdx 1) cards)).headD 0 <
        (divorce_child_row5 cards hubIdx
          (encodeCombo (sts.set hubIdx 0) cards)).headD 0) ∧
    (divorce_child_row2 cards hubIdx (encodeCombo (sts.set hubIdx 0) cards) =
        [1, 0] ∧
      divorce_child_row2 cards hubIdx (encodeCombo (sts.set hubIdx 1) cards) =
        [0, 1] ∧
      (divorce_child_row2 cards hubIdx
          (encodeCombo (sts.set hubIdx 1) cards)).headD 0 <
        (divorce_child_row2 cards hubIdx
          (encodeCombo (sts.set hubIdx 0) cards)).headD 0) := by
  have hlen : sts.length = cards.length := hval.length_eq
  have h0 : List.Forall₂ (· < ·) (sts.set hubIdx 0) cards :=
    forall₂_lt_set sts cards hval hubIdx 0 (by rw [hcard]; norm_num)
  have h1 : List.Forall₂ (· < ·) (sts.set hubIdx 1) cards :=
    forall₂_lt_set sts cards hval hubIdx 1 (by rw [hcard]; norm_num)
  have hd0 := decode_encode _ _ h0
  have hd1 := decode_encode _ _ h1
  have hg0 : (sts.set hubIdx 0).getD hubIdx 0 = 0 :=
    getD_set_self sts hubIdx 0 (by omega)
  have hg1 : (sts.set hubIdx 1).getD hubIdx 0 = 1 :=
    getD_set_self sts hubIdx 1 (by omega)
  have e50 : divorce_child_row5 cards hubIdx
      (encodeCombo (sts.set hubIdx 0) cards) = divorceLow5 := by
    unfold divorce_child_row5
    rw [hd0, hg0]
    simp
  have e51 : divorce_child_row5 cards hubIdx
      (encodeCombo (sts.set hubIdx 1) cards) = divorceHigh5 := by
    unfold divorce_child_row5
    rw [hd1, hg1]
    norm_num
  have e20 : divorce_child_row2 cards hubIdx
      (encodeCombo (sts.set hubIdx 0) cards) = [1, 0] := by
    unfold divorce_child_row2
    rw [hd0, hg0]
    simp
  have e21 : divorce_child_row2 cards hubIdx
      (encodeCombo (sts.set hubIdx 1) cards) = [0, 1] := by
    unfold divorce_child_row2
    rw [hd1, hg1]
    norm_num
  refine ⟨⟨e50, e51, ?_⟩, e20, e21, ?_⟩
  · rw [e50, e51]
    norm_num [divorceLow5, divorceHigh5]
  · rw [e20, e21]
    norm_num

/-- Witness for C6 at a binary hub in first parent position beside a 5-state
parent fixed in state 3. -/
theorem C6_divorce_hub_bias_witness :
    List.Forall₂ (· < ·) [0, 3] [2, 5] ∧ 0 < ([2, 5] : List ℕ).length ∧
    ([2, 5] : List ℕ).getD 0 0 = 2 ∧
    divorce_child_row5 [2, 5] 0 (encodeCombo ([0, 3].set 0 0) [2, 5]) =
      divorceLow5 ∧
    divorce_child_row5 [2, 5] 0 (encodeCombo ([0, 3].set 0 1) [2, 5]) =
      divorceHigh5 := by
  have h := C6_divorce_hub_bias [2, 5] 0 [0, 3] (by decide) (by decide) (by decide)
  exact ⟨by decide, by decide, by decide, h.1.1, h.1.2.1⟩

/-- Claim C7 fails on the code: the divorce-children guard of the
remaining-edge loop compares the sanitized target id (`-` replaced by `_`)
against the raw divorce children ids, so for ids containing `-` the direct
arc is still attempted although its target was claimed by a divorce hub. The
evaluation exhibits this on STIX-style ids: the target is a divorce child,
yet the arc is attempted. -/
theorem C7_divorce_skip_code_bug :
    "attack-action--c1" ∈ divorce_children_set []
      [("attack-action--p1",
        ["attack-action--c1", "attack-action--c2", "attack-action--c3"])] ∧
    remaining_arc_attempted
      (divorce_children_set []
        [("attack-action--p1",
          ["attack-action--c1", "attack-action--c2", "attack-action--c3"])])
      (covered_edges [] []
        [("attack-action--p1",
          ["attack-action--c1", "attack-action--c2", "attack-action--c3"])])
      ["attack_action__p1", "attack_action__a1", "attack_action__c1",
       "attack_action__c2", "attack_action__c3", "attack_action__p1_div"]
      ("attack-action--a1", "attack-action--c1") = true := by
  decide

/-- Counterexample to claim C8: a tactic node whose table was already set
during group wiring has it overwritten by the ComputeAllCPTs phase. -/
theorem C8_counterexample :
    set_all_cpts_node true true (some [1, 0]) uniform5 default_prior2 ≠
      some [1, 0] := by
  norm_num [set_all_cpts_node, uniform5]

/-- Claim C8 amended: the ComputeAllCPTs phase leaves an already-assigned
(non-empty) table unchanged only for non-tactic CPT variables and does not
touch non-CPT variables, but for tactic nodes it always installs the freshly
computed fuzzy table, overriding any table set during group wiring. -/
theorem C8_set_all_cpts_frame (t : List ℚ) (existing : Option (List ℚ))
    (ft dt : List ℚ) (ht : t ≠ []) :
    set_all_cpts_node true false (some t) ft dt = some t ∧
    set_all_cpts_node true true existing ft dt = some ft ∧
    set_all_cpts_node false true existing ft dt = existing := by
  refine ⟨?_, rfl, rfl⟩
  simp [set_all_cpts_node, ht]

/-- Witness for the amended C8: a non-tactic table survives, a tactic table is
replaced. -/
theorem C8_set_all_cpts_frame_witness :
    ([7/10, 3/10] : List ℚ) ≠ [] ∧
    set_all_cpts_node true false (some [7/10, 3/10]) uniform5 default_prior2 =
      some [7/10, 3/10] ∧
    set_all_cpts_node true true (some [7/10, 3/10]) uniform5 default_prior2 =
      some uniform5 := by
  have h := C8_set_all_cpts_frame [7/10, 3/10] (some [7/10, 3/10]) uniform5
    default_prior2 (by simp)
  exact ⟨by simp, h.1, h.2.1⟩
